import Mathlib

/-
Verification of the casbin pgx adapter (adapter.go) against its
natural-language specification.

The adapter stores casbin policy rules in a relational table with schema
(id, ptype, v0..v5).  We embed the row type, the rule codec
(savePolicyLine / String / toStringPolicy), the content identifier
(policyID), the filter predicates (the WHERE clauses built by
RemoveFilteredPolicy, buildQuery and queryString), and the persistence
operations as pure functions over a table modelled as `List CasbinRule`.

The content hash (meow.Checksum, an external library) is abstracted as a
parameter `hash : String → String`; `policyIDData` is the exact byte
sequence the Go code feeds to the hash, so all claims about "the bytes
hashed" are settled on `policyIDData`, and claims about identifier
equality are settled parametrically in `hash` (instantiated with the
identity function in concrete witnesses/counterexamples, a legitimate
instance of the abstract hash).

Transactions: the Go code wraps multi-statement operations in one
transaction (`Begin` / per-statement error return / `defer Rollback` /
`Commit`).  We model a transaction as a statement list executed by
`runTx` with an optional failure-injection point `failAt`: failure at any
statement (or at commit, index `stmts.length`) yields the original table
(the store's rollback guarantee), success yields the fold of the
statements.
-/

set_option maxHeartbeats 1000000

/-- A row of the casbin_rule table (Go struct CasbinRule; the Go-ORM
`tableName` marker field carries no data and is omitted). -/
structure CasbinRule where
  ID : String
  Ptype : String
  V0 : String
  V1 : String
  V2 : String
  V3 : String
  V4 : String
  V5 : String
deriving DecidableEq

/-- Go `(r *CasbinRule) getValues`: the V0-V5 values as a slice. -/
def getValues (r : CasbinRule) : List String :=
  [r.V0, r.V1, r.V2, r.V3, r.V4, r.V5]

/-- Go `getLastNonEmptyIndex`: index of the last non-empty value,
-1 if all values are empty.  (The Go loop scans from the end; this
recursion computes the same value.) -/
def getLastNonEmptyIndex : List String → Int
  | [] => -1
  | v :: vs =>
    let r := getLastNonEmptyIndex vs
    if 0 ≤ r then r + 1
    else if v ≠ "" then 0 else -1

/-- Go `(r *CasbinRule) String`: the ptype, then `", " ++ vi` for every
i from 0 up to the last non-empty index (builder loop). -/
def CasbinRule.string (r : CasbinRule) : String :=
  ((getValues r).take (getLastNonEmptyIndex (getValues r) + 1).toNat).foldl
    (fun sb v => sb ++ ", " ++ v) r.Ptype

/-- Modelled from the spec: "trim only trailing emptiness" — the value
list with its maximal trailing run of empty strings removed, interior
empties kept.  Used as the spec-side reference for the codec claims. -/
def trimTrailingEmpty : List String → List String
  | [] => []
  | v :: vs =>
    match trimTrailingEmpty vs with
    | [] => if v = "" then [] else [v]
    | w :: ws => v :: w :: ws

/-- Modelled from the spec: `decode(Row) -> line` "emits ruleType, then
for i from 0 up to the last index holding a non-empty value, appends a
separator and vi". -/
def lineSpec (r : CasbinRule) : String :=
  (trimTrailingEmpty (getValues r)).foldl (fun acc v => acc ++ ", " ++ v) r.Ptype

/-- Go `strings.Join(l, sep)`. -/
def joinSep (sep : String) : List String → String
  | [] => ""
  | [v] => v
  | v :: w :: vs => v ++ sep ++ joinSep sep (w :: vs)

/-- The byte sequence `policyID` hashes:
`strings.Join(append([]string{ptype}, rule...), ",")`. -/
def policyIDData (ptype : String) (rule : List String) : String :=
  joinSep "," (ptype :: rule)

/-- Go `policyID`, with the external content hash (hex-rendered
meow.Checksum) abstracted as `hash`. -/
def policyID (hash : String → String) (ptype : String) (rule : List String) : String :=
  hash (policyIDData ptype rule)

/-- Go `savePolicyLine`: the row encoding of a rule.  Column Vk holds
`rule[k]` when `len(rule) > k`, else the empty string; ID is the content
identifier of the full (untruncated) rule. -/
def savePolicyLine (hash : String → String) (ptype : String) (rule : List String) : CasbinRule :=
  { ID := policyID hash ptype rule
    Ptype := ptype
    V0 := rule.getD 0 ""
    V1 := rule.getD 1 ""
    V2 := rule.getD 2 ""
    V3 := rule.getD 3 ""
    V4 := rule.getD 4 ""
    V5 := rule.getD 5 "" }

/-- Go `(c *CasbinRule) toStringPolicy`: the ptype (when non-empty)
followed by the values up to the last non-empty index. -/
def toStringPolicy (c : CasbinRule) : List String :=
  (if c.Ptype ≠ "" then [c.Ptype] else []) ++
    (getValues c).take (getLastNonEmptyIndex (getValues c) + 1).toNat

/-- The column `v<j>` of a row, as referenced by the SQL the adapter
builds (`fmt.Sprintf("v%d", j)`); only j = 0..5 exist in the schema. -/
def getV (r : CasbinRule) : Nat → String
  | 0 => r.V0
  | 1 => r.V1
  | 2 => r.V2
  | 3 => r.V3
  | 4 => r.V4
  | 5 => r.V5
  | _ => ""

/-- The (column, value) pairs the loop in `RemoveFilteredPolicy` (and
`buildQuery`, same loop at offset 0) appends to the WHERE clause: one
`v(fieldIndex+i) = value` conjunct per non-empty fieldValues[i]. -/
def buildFilterArgs (fieldIndex : Nat) : List String → List (Nat × String)
  | [] => []
  | v :: vs =>
    (if v = "" then [] else [(fieldIndex, v)]) ++ buildFilterArgs (fieldIndex + 1) vs

/-- Whether a row satisfies `ptype = $1 AND v<j1> = w1 AND ...` for the
given conjunct list. -/
def rowMatchesArgs (r : CasbinRule) (ptype : String) (args : List (Nat × String)) : Bool :=
  (r.Ptype == ptype) && args.all (fun a => getV r a.1 == a.2)

/-- Go `RemoveFilteredPolicy`: one DELETE with the WHERE clause built by
the loop above. -/
def removeFilteredPolicy (db : List CasbinRule) (ptype : String) (fieldIndex : Nat)
    (fieldValues : List String) : List CasbinRule :=
  db.filter (fun r => ! rowMatchesArgs r ptype (buildFilterArgs fieldIndex fieldValues))

/-- Modelled from the spec: the `buildPredicate(section, filterValues,
startOffset)` semantics — "for each position i with a non-empty value,
an equality constraint on column v(startOffset+i); empty values impose
no constraint", conjunctive. -/
def filterMatchesSpec (r : CasbinRule) (ptype : String) (fieldIndex : Nat)
    (fieldValues : List String) : Prop :=
  r.Ptype = ptype ∧
    ∀ i, (h : i < fieldValues.length) →
      fieldValues.get ⟨i, h⟩ ≠ "" → getV r (fieldIndex + i) = fieldValues.get ⟨i, h⟩

/-- The `line` value `UpdateFilteredPolicies` builds from
(ptype, fieldIndex, fieldValues): Vk = fieldValues[k-fieldIndex] when
`fieldIndex <= k && k < fieldIndex+len(fieldValues)`, else empty.
fieldIndex is a Go int, so the window is signed. -/
def buildUpdateLine (ptype : String) (fieldIndex : Int) (fieldValues : List String) : CasbinRule :=
  { ID := ""
    Ptype := ptype
    V0 := if fieldIndex ≤ 0 ∧ (0 : Int) < fieldIndex + fieldValues.length then
        fieldValues.getD ((0 : Int) - fieldIndex).toNat "" else ""
    V1 := if fieldIndex ≤ 1 ∧ (1 : Int) < fieldIndex + fieldValues.length then
        fieldValues.getD ((1 : Int) - fieldIndex).toNat "" else ""
    V2 := if fieldIndex ≤ 2 ∧ (2 : Int) < fieldIndex + fieldValues.length then
        fieldValues.getD ((2 : Int) - fieldIndex).toNat "" else ""
    V3 := if fieldIndex ≤ 3 ∧ (3 : Int) < fieldIndex + fieldValues.length then
        fieldValues.getD ((3 : Int) - fieldIndex).toNat "" else ""
    V4 := if fieldIndex ≤ 4 ∧ (4 : Int) < fieldIndex + fieldValues.length then
        fieldValues.getD ((4 : Int) - fieldIndex).toNat "" else ""
    V5 := if fieldIndex ≤ 5 ∧ (5 : Int) < fieldIndex + fieldValues.length then
        fieldValues.getD ((5 : Int) - fieldIndex).toNat "" else "" }

/-- Whether a row satisfies the WHERE clause `(c *CasbinRule).queryString`
builds from `line`: `ptype = line.Ptype` AND `v_i = line values[i]` for
every i from 0 up to the last non-empty index of line's values. -/
def queryMatches (line r : CasbinRule) : Bool :=
  (r.Ptype == line.Ptype) &&
    (List.range (getLastNonEmptyIndex (getValues line) + 1).toNat).all
      (fun i => getV r i == (getValues line).getD i "")

/-- Whether the table already holds a row with the given id (drives the
primary-key conflict in `INSERT ... ON CONFLICT DO NOTHING`). -/
def hasId (t : List CasbinRule) (s : String) : Bool :=
  t.any (fun r => r.ID == s)

/-- `INSERT ... ON CONFLICT DO NOTHING` against the id primary key. -/
def insertOnConflict (t : List CasbinRule) (r : CasbinRule) : List CasbinRule :=
  if hasId t r.ID then t else t ++ [r]

/-- Number of rows carrying the given id. -/
def countId (t : List CasbinRule) (s : String) : Nat :=
  (t.filter (fun r => r.ID == s)).length

/-- The primary-key invariant of the table: no two rows share an id. -/
def NodupIDs (t : List CasbinRule) : Prop :=
  (t.map (fun r => r.ID)).Nodup

/-- The SQL statements the adapter issues inside transactions. -/
inductive Stmt where
  | deleteAll : Stmt
  | insert : CasbinRule → Stmt
  | deleteById : String → Stmt
  | deleteFiltered : String → List (Nat × String) → Stmt
  | deleteWhereLine : CasbinRule → Stmt
  | updateById : String → CasbinRule → Stmt

/-- Effect of one statement on the table.  `deleteAll` is
`DELETE WHERE id IS NOT NULL` (id is the non-null primary key, so every
row goes).  `updateById` is `UPDATE SET ptype = .., v0 = .., .., v5 = ..
WHERE id = ..` — note the SET list does not include the id column. -/
def applyStmt (t : List CasbinRule) : Stmt → List CasbinRule
  | .deleteAll => []
  | .insert r => insertOnConflict t r
  | .deleteById s => t.filter (fun r => ! (r.ID == s))
  | .deleteFiltered ptype args => t.filter (fun r => ! rowMatchesArgs r ptype args)
  | .deleteWhereLine line => t.filter (fun r => ! queryMatches line r)
  | .updateById s newLine =>
      t.map (fun r =>
        if r.ID == s then
          { ID := r.ID, Ptype := newLine.Ptype, V0 := newLine.V0, V1 := newLine.V1,
            V2 := newLine.V2, V3 := newLine.V3, V4 := newLine.V4, V5 := newLine.V5 }
        else r)

/-- Execute statements in order starting at statement index i; `failAt`
injects an error at the statement with that index. -/
def runStmtsFrom (failAt : Option Nat) : List CasbinRule → List Stmt → Nat → Option (List CasbinRule)
  | t, [], _ => some t
  | t, s :: rest, i =>
    if failAt = some i then none
    else runStmtsFrom failAt (applyStmt t s) rest (i + 1)

/-- One transaction over the table: statements at indices 0..n-1, commit
at index n.  An error anywhere (statement or commit) rolls the table
back to its pre-transaction contents and reports failure. -/
def runTx (db : List CasbinRule) (stmts : List Stmt) (failAt : Option Nat) :
    List CasbinRule × Bool :=
  match runStmtsFrom failAt db stmts 0 with
  | none => (db, false)
  | some t => if failAt = some stmts.length then (db, false) else (t, true)

/-- The rows `SavePolicy` gathers from one model section: for each
(sub-type, policy list) pair, one `savePolicyLine` row per rule. -/
def gatherPolicyLines (hash : String → String) :
    List (String × List (List String)) → List CasbinRule
  | [] => []
  | sec :: rest => sec.2.map (savePolicyLine hash sec.1) ++ gatherPolicyLines hash rest

/-- The statement sequence of `SavePolicy`: delete every row, then
insert (conflict-ignoring) one row per rule of the "p" and "g"
sections. -/
def savePolicyStmts (hash : String → String)
    (pSec gSec : List (String × List (List String))) : List Stmt :=
  Stmt.deleteAll ::
    (gatherPolicyLines hash pSec ++ gatherPolicyLines hash gSec).map Stmt.insert

/-- Go `SavePolicy` as a transaction over the table. -/
def savePolicyRun (hash : String → String) (db : List CasbinRule)
    (pSec gSec : List (String × List (List String))) (failAt : Option Nat) :
    List CasbinRule × Bool :=
  runTx db (savePolicyStmts hash pSec gSec) failAt

/-- Go `AddPolicy`: a single conflict-ignoring insert (sec is unused by
the Go code too). -/
def addPolicy (hash : String → String) (db : List CasbinRule) (sec ptype : String)
    (rule : List String) : List CasbinRule :=
  insertOnConflict db (savePolicyLine hash ptype rule)

/-- The statements of Go `AddPolicies`: one conflict-ignoring insert per
rule, in one transaction. -/
def addPoliciesStmts (hash : String → String) (ptype : String)
    (rules : List (List String)) : List Stmt :=
  (rules.map (savePolicyLine hash ptype)).map Stmt.insert

/-- The statements of Go `UpdatePolicies`: per (old, new) pair, one
UPDATE targeting the old rule's id and rewriting ptype and v0..v5 (but
not id) to the new rule's encoding. -/
def updatePoliciesStmts (hash : String → String) (ptype : String)
    (oldRules newRules : List (List String)) : List Stmt :=
  (oldRules.zip newRules).map
    (fun pr => Stmt.updateById (policyID hash ptype pr.1) (savePolicyLine hash ptype pr.2))

/-- Go `UpdatePolicies` as a transaction over the table. -/
def updatePoliciesRun (hash : String → String) (db : List CasbinRule) (sec ptype : String)
    (oldRules newRules : List (List String)) (failAt : Option Nat) :
    List CasbinRule × Bool :=
  runTx db (updatePoliciesStmts hash ptype oldRules newRules) failAt

/-- The statements of Go `UpdateFilteredPolicies`' loop: per new rule,
a DELETE by the queryString predicate of `line`, then a
conflict-ignoring insert of the new rule's row. -/
def updateFilteredStmts (line : CasbinRule) : List CasbinRule → List Stmt
  | [] => []
  | np :: rest => Stmt.deleteWhereLine line :: Stmt.insert np :: updateFilteredStmts line rest

/-- Go `UpdateFilteredPolicies`: builds `line` from the signed field
window, runs the delete/insert pairs in one transaction, and returns the
"previous rules" list built from `oldP` — which the Go code declares
empty and never appends to. -/
def updateFilteredPoliciesRun (hash : String → String) (db : List CasbinRule)
    (sec ptype : String) (newPolicies : List (List String)) (fieldIndex : Int)
    (fieldValues : List String) (failAt : Option Nat) :
    (List CasbinRule × Bool) × List (List String) :=
  let line := buildUpdateLine ptype fieldIndex fieldValues
  let newP := newPolicies.map (savePolicyLine hash ptype)
  let oldP : List CasbinRule := []
  (runTx db (updateFilteredStmts line newP) failAt, oldP.map toStringPolicy)

/-- The row-writing operations of the adapter other than
UpdatePolicy/UpdatePolicies (whose UPDATE keeps the stored id). -/
inductive WriteOp where
  | saveOp : List (String × List (List String)) → List (String × List (List String)) → WriteOp
  | addOp : String → List String → WriteOp
  | addManyOp : String → List (List String) → WriteOp
  | removeOp : String → List String → WriteOp
  | removeManyOp : String → List (List String) → WriteOp
  | removeFilteredOp : String → Nat → List String → WriteOp
  | updateFilteredOp : String → List (List String) → Int → List String → WriteOp

/-- The statement sequence each of those operations issues. -/
def writeOpStmts (hash : String → String) : WriteOp → List Stmt
  | .saveOp p g => savePolicyStmts hash p g
  | .addOp pt rule => [Stmt.insert (savePolicyLine hash pt rule)]
  | .addManyOp pt rules => addPoliciesStmts hash pt rules
  | .removeOp pt rule => [Stmt.deleteById (policyID hash pt rule)]
  | .removeManyOp pt rules => rules.map (fun rule => Stmt.deleteById (policyID hash pt rule))
  | .removeFilteredOp pt fi vs => [Stmt.deleteFiltered pt (buildFilterArgs fi vs)]
  | .updateFilteredOp pt newPolicies fi vs =>
      updateFilteredStmts (buildUpdateLine pt fi vs) (newPolicies.map (savePolicyLine hash pt))

/-- Resulting table of one write operation (success or rollback). -/
def applyWriteOp (hash : String → String) (db : List CasbinRule) (op : WriteOp)
    (failAt : Option Nat) : List CasbinRule :=
  (runTx db (writeOpStmts hash op) failAt).1

/-- Every row of the table is the `savePolicyLine` encoding of some
rule, i.e. its id is the content hash of the rule that produced it. -/
def contentAddressed (hash : String → String) (t : List CasbinRule) : Prop :=
  ∀ r ∈ t, ∃ p rule, r = savePolicyLine hash p rule

/-- Statements that cannot break `contentAddressed`: deletes, and
inserts of `savePolicyLine` images.  `updateById` is excluded — it
rewrites the value columns while keeping the stored id. -/
def StmtGood (hash : String → String) : Stmt → Prop
  | .insert r => ∃ p rule, r = savePolicyLine hash p rule
  | .updateById _ _ => False
  | _ => True

theorem strAppend_cancel_left {a b c : String} (h : a ++ b = a ++ c) : b = c := by
  have h2 : (a ++ b).data = (a ++ c).data := by rw [h]
  simp [String.data_append] at h2
  exact String.ext h2

theorem strAppend_cancel_right {a b c : String} (h : a ++ c = b ++ c) : a = b := by
  have h2 : (a ++ c).data = (b ++ c).data := by rw [h]
  simp [String.data_append] at h2
  exact String.ext h2

theorem joinSep_cons_cons (sep v w : String) (vs : List String) :
    joinSep sep (v :: w :: vs) = v ++ sep ++ joinSep sep (w :: vs) := rfl

theorem getLastNonEmptyIndex_nil : getLastNonEmptyIndex [] = -1 := rfl

theorem getLastNonEmptyIndex_cons (v : String) (vs : List String) :
    getLastNonEmptyIndex (v :: vs) =
      if 0 ≤ getLastNonEmptyIndex vs then getLastNonEmptyIndex vs + 1
      else if v ≠ "" then 0 else -1 := rfl

theorem neg_one_le_getLastNonEmptyIndex (vs : List String) : -1 ≤ getLastNonEmptyIndex vs := by
  induction vs with
  | nil => simp [getLastNonEmptyIndex_nil]
  | cons v tl ih =>
    rw [getLastNonEmptyIndex_cons]
    split_ifs <;> omega

theorem getLastNonEmptyIndex_eq_neg_one_iff (vs : List String) :
    getLastNonEmptyIndex vs = -1 ↔ ∀ v ∈ vs, v = "" := by
  induction vs with
  | nil => simp [getLastNonEmptyIndex_nil]
  | cons v tl ih =>
    rw [getLastNonEmptyIndex_cons]
    have hge := neg_one_le_getLastNonEmptyIndex tl
    split_ifs with h0 hv
    · constructor
      · intro h; exact absurd h (by omega)
      · intro h
        have htl : ∀ x ∈ tl, x = "" := fun x hx => h x (List.mem_cons_of_mem _ hx)
        have := ih.mpr htl
        omega
    · constructor
      · intro h; exact absurd h (by decide)
      · intro h; exact absurd (h v (List.mem_cons_self v tl)) hv
    · have hr : getLastNonEmptyIndex tl = -1 := by omega
      constructor
      · intro _ x hx
        rcases List.mem_cons.mp hx with h | h
        · rw [h]; simpa using hv
        · exact (ih.mp hr) x h
      · intro _; rfl

theorem trimTrailingEmpty_eq_nil_iff (vs : List String) :
    trimTrailingEmpty vs = [] ↔ ∀ v ∈ vs, v = "" := by
  induction vs with
  | nil => simp [trimTrailingEmpty]
  | cons v tl ih =>
    simp only [trimTrailingEmpty]
    cases htl : trimTrailingEmpty tl with
    | nil =>
      have hall : ∀ x ∈ tl, x = "" := ih.mp htl
      by_cases hv : v = ""
      · rw [if_pos hv]
        constructor
        · intro _ x hx
          rcases List.mem_cons.mp hx with h | h
          · rw [h]; exact hv
          · exact hall x h
        · intro _; rfl
      · rw [if_neg hv]
        constructor
        · intro h; exact absurd h (by simp)
        · intro h; exact absurd (h v (List.mem_cons_self v tl)) hv
    | cons w ws =>
      constructor
      · intro h; exact absurd h (by simp)
      · intro h
        have hnil : trimTrailingEmpty tl = [] :=
          ih.mpr (fun x hx => h x (List.mem_cons_of_mem _ hx))
        rw [htl] at hnil
        exact absurd hnil (by simp)

theorem take_lastIndex_eq_trim (vs : List String) :
    vs.take (getLastNonEmptyIndex vs + 1).toNat = trimTrailingEmpty vs := by
  induction vs with
  | nil => rfl
  | cons v tl ih =>
    rw [getLastNonEmptyIndex_cons]
    have hge := neg_one_le_getLastNonEmptyIndex tl
    by_cases h0 : 0 ≤ getLastNonEmptyIndex tl
    · rw [if_pos h0]
      have htake : (getLastNonEmptyIndex tl + 1 + 1).toNat = (getLastNonEmptyIndex tl + 1).toNat + 1 := by
        omega
      rw [htake, List.take_succ_cons, ih]
      have hne : trimTrailingEmpty tl ≠ [] := by
        intro hnil
        have hall := (trimTrailingEmpty_eq_nil_iff tl).mp hnil
        have := (getLastNonEmptyIndex_eq_neg_one_iff tl).mpr hall
        omega
      cases htl : trimTrailingEmpty tl with
      | nil => exact absurd htl hne
      | cons w ws => simp [trimTrailingEmpty, htl]
    · rw [if_neg h0]
      have hr : getLastNonEmptyIndex tl = -1 := by omega
      have hall := (getLastNonEmptyIndex_eq_neg_one_iff tl).mp hr
      have htn : trimTrailingEmpty tl = [] := (trimTrailingEmpty_eq_nil_iff tl).mpr hall
      by_cases hv : v = ""
      · norm_num [hv, htn, trimTrailingEmpty]
      · norm_num [hv, htn, trimTrailingEmpty]

theorem trim_append_eq (vs : List String) :
    trimTrailingEmpty vs ++ List.replicate (vs.length - (trimTrailingEmpty vs).length) "" = vs := by
  induction vs with
  | nil => rfl
  | cons v tl ih =>
    cases htl : trimTrailingEmpty tl with
    | nil =>
      have hall := (trimTrailingEmpty_eq_nil_iff tl).mp htl
      have htlrep : tl = List.replicate tl.length "" := List.eq_replicate_of_mem hall
      by_cases hv : v = ""
      · simp only [trimTrailingEmpty, htl, if_pos hv, List.nil_append, List.length_nil,
          Nat.sub_zero, List.length_cons, List.replicate_succ]
        rw [← htlrep, hv]
      · simp only [trimTrailingEmpty, htl, if_neg hv, List.length_cons, List.length_singleton,
          List.length_nil, Nat.succ_sub_succ, Nat.sub_zero, List.singleton_append]
        rw [← htlrep]
    | cons w ws =>
      simp only [trimTrailingEmpty, htl, List.length_cons, Nat.succ_sub_succ, List.cons_append]
      rw [htl] at ih
      exact congrArg (v :: ·) ih

theorem trim_append_replicate (xs : List String) (n : Nat) :
    trimTrailingEmpty (xs ++ List.replicate n "") = trimTrailingEmpty xs := by
  induction xs with
  | nil =>
    simp only [List.nil_append]
    exact (trimTrailingEmpty_eq_nil_iff _).mpr
      (fun x hx => List.eq_of_mem_replicate hx)
  | cons x xs ih =>
    simp only [List.cons_append, trimTrailingEmpty, List.append_eq]
    rw [ih]

theorem foldl_sep_append (sep : String) (xs : List String) (b a : String) :
    xs.foldl (fun sb v => sb ++ sep ++ v) (b ++ a) =
      b ++ xs.foldl (fun sb v => sb ++ sep ++ v) a := by
  induction xs generalizing a with
  | nil => rfl
  | cons x tl ih =>
    simp only [List.foldl_cons]
    have hassoc : b ++ a ++ sep ++ x = b ++ (a ++ sep ++ x) := by
      simp only [String.append_assoc]
    rw [hassoc, ih]

theorem joinSep_cons_eq_foldl (sep a : String) (l : List String) :
    joinSep sep (a :: l) = l.foldl (fun sb v => sb ++ sep ++ v) a := by
  induction l generalizing a with
  | nil => rfl
  | cons x tl ih =>
    rw [joinSep_cons_cons, ih x]
    simp only [List.foldl_cons]
    rw [foldl_sep_append sep tl (a ++ sep) x, String.append_assoc]

theorem joinSep_append_single (sep v a : String) (l : List String) :
    joinSep sep (a :: l ++ [v]) = joinSep sep (a :: l) ++ sep ++ v := by
  induction l generalizing a with
  | nil => rfl
  | cons b bs ih =>
    rw [show a :: b :: bs ++ [v] = a :: b :: (bs ++ [v]) from rfl, joinSep_cons_cons,
      show b :: (bs ++ [v]) = b :: bs ++ [v] from rfl, ih b, joinSep_cons_cons]
    simp only [String.append_assoc]

theorem joinSep_slot_inj (sep a x y : String) (l t : List String)
    (h : joinSep sep (a :: (l ++ x :: t)) = joinSep sep (a :: (l ++ y :: t))) : x = y := by
  induction l generalizing a with
  | nil =>
    simp only [List.nil_append] at h
    rw [joinSep_cons_cons, joinSep_cons_cons] at h
    have h2 := strAppend_cancel_left h
    cases t with
    | nil => simpa [joinSep] using h2
    | cons w ws =>
      rw [joinSep_cons_cons, joinSep_cons_cons] at h2
      exact strAppend_cancel_right (strAppend_cancel_right h2)
  | cons b bs ih =>
    simp only [List.cons_append] at h
    rw [joinSep_cons_cons, joinSep_cons_cons] at h
    exact ih b (strAppend_cancel_left h)

theorem policyIDData_append_empty_ne (ptype : String) (rule : List String) :
    policyIDData ptype (rule ++ [""]) ≠ policyIDData ptype rule := by
  intro h
  unfold policyIDData at h
  rw [show ptype :: (rule ++ [""]) = ptype :: rule ++ [""] from rfl,
    joinSep_append_single] at h
  have hl := congrArg String.length h
  rw [String.length_append, String.length_append] at hl
  have h1 : (("," : String)).length = 1 := rfl
  have h2 : (("" : String)).length = 0 := rfl
  omega

theorem getValues_savePolicyLine (hash : String → String) (ptype : String) (rule : List String)
    (h : rule.length ≤ 6) :
    getValues (savePolicyLine hash ptype rule) = rule ++ List.replicate (6 - rule.length) "" := by
  match rule, h with
  | [], _ => rfl
  | [a], _ => rfl
  | [a, b], _ => rfl
  | [a, b, c], _ => rfl
  | [a, b, c, d], _ => rfl
  | [a, b, c, d, e], _ => rfl
  | [a, b, c, d, e, f], _ => rfl
  | a :: b :: c :: d :: e :: f :: g :: rest, h =>
    exact absurd h (by simp [List.length_cons])

theorem getValues_getD_eq_getV (r : CasbinRule) (j : Nat) (h : j < 6) :
    (getValues r).getD j "" = getV r j := by
  match j, h with
  | 0, _ => rfl
  | 1, _ => rfl
  | 2, _ => rfl
  | 3, _ => rfl
  | 4, _ => rfl
  | 5, _ => rfl

theorem getValues_get_eq_getV (r : CasbinRule) (j : Nat) (h : j < (getValues r).length) :
    (getValues r).get ⟨j, h⟩ = getV r j := by
  match j, h with
  | 0, _ => rfl
  | 1, _ => rfl
  | 2, _ => rfl
  | 3, _ => rfl
  | 4, _ => rfl
  | 5, _ => rfl

theorem length_getValues (r : CasbinRule) : (getValues r).length = 6 := rfl

theorem hasId_insertOnConflict (t : List CasbinRule) (r : CasbinRule) (s : String) :
    hasId (insertOnConflict t r) s = (hasId t s || (r.ID == s)) := by
  unfold insertOnConflict
  split_ifs with h
  · cases hrs : (r.ID == s)
    · simp [hrs]
    · have hid : r.ID = s := eq_of_beq hrs
      subst hid
      simp [h]
  · simp [hasId, List.any_append]

theorem mem_insertOnConflict {t : List CasbinRule} {r x : CasbinRule}
    (h : x ∈ insertOnConflict t r) : x ∈ t ∨ x = r := by
  unfold insertOnConflict at h
  split_ifs at h
  · exact Or.inl h
  · rcases List.mem_append.mp h with h2 | h2
    · exact Or.inl h2
    · exact Or.inr (List.mem_singleton.mp h2)

theorem nodupIDs_insertOnConflict {t : List CasbinRule} (r : CasbinRule)
    (h : NodupIDs t) : NodupIDs (insertOnConflict t r) := by
  unfold insertOnConflict
  split_ifs with hh
  · exact h
  · unfold NodupIDs at *
    rw [List.map_append, List.nodup_append]
    refine ⟨h, List.nodup_singleton _, ?_⟩
    intro a ha hb
    simp only [List.map_cons, List.map_nil, List.mem_singleton] at hb
    apply hh
    unfold hasId
    rw [List.any_eq_true]
    rcases List.mem_map.mp ha with ⟨row, hrow, hid⟩
    exact ⟨row, hrow, beq_iff_eq.mpr (by rw [hid, hb])⟩

theorem countId_eq_ite {t : List CasbinRule} (s : String) (h : NodupIDs t) :
    countId t s = if hasId t s then 1 else 0 := by
  induction t with
  | nil => rfl
  | cons r tl ih =>
    have hnd : NodupIDs tl := by
      unfold NodupIDs at h ⊢
      simp only [List.map_cons, List.nodup_cons] at h
      exact h.2
    have hnotin : r.ID ∉ tl.map (fun x => x.ID) := by
      unfold NodupIDs at h
      simp only [List.map_cons, List.nodup_cons] at h
      exact h.1
    unfold countId hasId at *
    by_cases hr : (r.ID == s) = true
    · have hid : r.ID = s := eq_of_beq hr
      subst hid
      have h0 : List.filter (fun x => x.ID == r.ID) tl = [] := by
        rw [List.filter_eq_nil_iff]
        intro a ha hpa
        exact hnotin (List.mem_map.mpr ⟨a, ha, eq_of_beq hpa⟩)
      simp [List.filter_cons, h0]
    · simp only [List.filter_cons, hr, List.any_cons, Bool.false_or, if_neg]
      simpa [hr] using ih hnd

theorem hasId_foldl_insert (lines : List CasbinRule) (t : List CasbinRule) (s : String) :
    hasId (lines.foldl insertOnConflict t) s
      = (hasId t s || lines.any (fun l => l.ID == s)) := by
  induction lines generalizing t with
  | nil => simp
  | cons l ls ih =>
    simp only [List.foldl_cons, List.any_cons]
    rw [ih, hasId_insertOnConflict, Bool.or_assoc]

theorem nodupIDs_foldl_insert (lines : List CasbinRule) (t : List CasbinRule)
    (h : NodupIDs t) : NodupIDs (lines.foldl insertOnConflict t) := by
  induction lines generalizing t with
  | nil => exact h
  | cons l ls ih => exact ih _ (nodupIDs_insertOnConflict l h)

theorem mem_foldl_insert {lines : List CasbinRule} {t : List CasbinRule} {x : CasbinRule}
    (h : x ∈ lines.foldl insertOnConflict t) : x ∈ t ∨ x ∈ lines := by
  induction lines generalizing t with
  | nil => exact Or.inl h
  | cons l ls ih =>
    rcases ih h with h2 | h2
    · rcases mem_insertOnConflict h2 with h3 | h3
      · exact Or.inl h3
      · exact Or.inr (by rw [h3]; exact List.mem_cons_self _ _)
    · exact Or.inr (List.mem_cons_of_mem _ h2)

theorem runStmtsFrom_some (failAt : Option Nat) (stmts : List Stmt) :
    ∀ (t : List CasbinRule) (i : Nat) (u : List CasbinRule),
      runStmtsFrom failAt t stmts i = some u → u = stmts.foldl applyStmt t := by
  induction stmts with
  | nil =>
    intro t i u h
    simp only [runStmtsFrom] at h
    cases h
    rfl
  | cons s rest ih =>
    intro t i u h
    unfold runStmtsFrom at h
    by_cases hf : failAt = some i
    · rw [if_pos hf] at h
      cases h
    · rw [if_neg hf] at h
      simp only [List.foldl_cons]
      exact ih (applyStmt t s) (i + 1) u h

theorem runTx_of_none {db : List CasbinRule} {stmts : List Stmt} {failAt : Option Nat}
    (h : runStmtsFrom failAt db stmts 0 = none) : runTx db stmts failAt = (db, false) := by
  unfold runTx
  rw [h]

theorem runTx_of_some {db : List CasbinRule} {stmts : List Stmt} {failAt : Option Nat}
    {t : List CasbinRule} (h : runStmtsFrom failAt db stmts 0 = some t) :
    runTx db stmts failAt =
      if failAt = some stmts.length then (db, false) else (t, true) := by
  unfold runTx
  rw [h]

theorem runTx_not_ok {db : List CasbinRule} {stmts : List Stmt} {failAt : Option Nat}
    (h : (runTx db stmts failAt).2 = false) : (runTx db stmts failAt).1 = db := by
  cases hr : runStmtsFrom failAt db stmts 0 with
  | none => rw [runTx_of_none hr]
  | some t =>
    rw [runTx_of_some hr] at h ⊢
    split_ifs at h ⊢
    rfl

theorem runTx_ok {db : List CasbinRule} {stmts : List Stmt} {failAt : Option Nat}
    (h : (runTx db stmts failAt).2 = true) :
    (runTx db stmts failAt).1 = stmts.foldl applyStmt db := by
  cases hr : runStmtsFrom failAt db stmts 0 with
  | none => rw [runTx_of_none hr] at h; simp at h
  | some t =>
    rw [runTx_of_some hr] at h ⊢
    split_ifs at h ⊢
    simpa using runStmtsFrom_some failAt stmts db 0 t hr

theorem foldl_applyStmt_inserts (lines : List CasbinRule) (t : List CasbinRule) :
    (lines.map Stmt.insert).foldl applyStmt t = lines.foldl insertOnConflict t := by
  induction lines generalizing t with
  | nil => rfl
  | cons l ls ih =>
    simp only [List.map_cons, List.foldl_cons, applyStmt]
    exact ih _

theorem mem_gatherPolicyLines {hash : String → String}
    {secs : List (String × List (List String))} {l : CasbinRule}
    (h : l ∈ gatherPolicyLines hash secs) :
    ∃ pt rule, l = savePolicyLine hash pt rule := by
  induction secs with
  | nil => cases h
  | cons sec rest ih =>
    simp only [gatherPolicyLines] at h
    rcases List.mem_append.mp h with h2 | h2
    · rcases List.mem_map.mp h2 with ⟨rule, _, hrule⟩
      exact ⟨sec.1, rule, hrule.symm⟩
    · exact ih h2

theorem mem_updateFilteredStmts {line : CasbinRule} {l : List CasbinRule} {s : Stmt}
    (h : s ∈ updateFilteredStmts line l) :
    s = Stmt.deleteWhereLine line ∨ ∃ np ∈ l, s = Stmt.insert np := by
  induction l with
  | nil => cases h
  | cons np rest ih =>
    simp only [updateFilteredStmts] at h
    rcases List.mem_cons.mp h with h2 | h2
    · exact Or.inl h2
    · rcases List.mem_cons.mp h2 with h3 | h3
      · exact Or.inr ⟨np, List.mem_cons_self _ _, h3⟩
      · rcases ih h3 with h4 | ⟨np2, hnp2, hs⟩
        · exact Or.inl h4
        · exact Or.inr ⟨np2, List.mem_cons_of_mem _ hnp2, hs⟩

theorem writeOpStmts_good (hash : String → String) (op : WriteOp) :
    ∀ s ∈ writeOpStmts hash op, StmtGood hash s := by
  cases op with
  | saveOp p g =>
    intro s hs
    unfold writeOpStmts savePolicyStmts at hs
    rcases List.mem_cons.mp hs with h | h
    · rw [h]; trivial
    · rcases List.mem_map.mp h with ⟨l, hl, hls⟩
      rw [← hls]
      show ∃ pt rule, l = savePolicyLine hash pt rule
      rcases List.mem_append.mp hl with h2 | h2
      · exact mem_gatherPolicyLines h2
      · exact mem_gatherPolicyLines h2
  | addOp pt rule =>
    intro s hs
    rw [List.mem_singleton.mp hs]
    exact ⟨pt, rule, rfl⟩
  | addManyOp pt rules =>
    intro s hs
    unfold writeOpStmts addPoliciesStmts at hs
    rcases List.mem_map.mp hs with ⟨l, hl, hls⟩
    rw [← hls]
    show ∃ p r0, l = savePolicyLine hash p r0
    rcases List.mem_map.mp hl with ⟨rule, _, hrule⟩
    exact ⟨pt, rule, hrule.symm⟩
  | removeOp pt rule =>
    intro s hs
    rw [List.mem_singleton.mp hs]
    trivial
  | removeManyOp pt rules =>
    intro s hs
    rcases List.mem_map.mp hs with ⟨rule, _, hrule⟩
    rw [← hrule]
    trivial
  | removeFilteredOp pt fi vs =>
    intro s hs
    rw [List.mem_singleton.mp hs]
    trivial
  | updateFilteredOp pt nps fi vs =>
    intro s hs
    rcases mem_updateFilteredStmts hs with h | ⟨np, hnp, hs2⟩
    · rw [h]; trivial
    · rw [hs2]
      show ∃ p r0, np = savePolicyLine hash p r0
      rcases List.mem_map.mp hnp with ⟨rule, _, hrule⟩
      exact ⟨pt, rule, hrule.symm⟩

theorem contentAddressed_applyStmt {hash : String → String} {t : List CasbinRule} {s : Stmt}
    (hs : StmtGood hash s) (ht : contentAddressed hash t) :
    contentAddressed hash (applyStmt t s) := by
  cases s with
  | deleteAll => intro r hr; cases hr
  | insert r0 =>
    intro r hr
    rcases mem_insertOnConflict hr with h | h
    · exact ht r h
    · rw [h]; exact hs
  | deleteById s0 =>
    intro r hr
    exact ht r (List.mem_filter.mp hr).1
  | deleteFiltered pt args =>
    intro r hr
    exact ht r (List.mem_filter.mp hr).1
  | deleteWhereLine line =>
    intro r hr
    exact ht r (List.mem_filter.mp hr).1
  | updateById s0 nl => exact hs.elim

theorem contentAddressed_foldl {hash : String → String} (stmts : List Stmt) :
    ∀ (t : List CasbinRule), (∀ s ∈ stmts, StmtGood hash s) → contentAddressed hash t →
      contentAddressed hash (stmts.foldl applyStmt t) := by
  induction stmts with
  | nil => intro t _ ht; exact ht
  | cons s rest ih =>
    intro t hgood ht
    simp only [List.foldl_cons]
    exact ih _ (fun x hx => hgood x (List.mem_cons_of_mem _ hx))
      (contentAddressed_applyStmt (hgood s (List.mem_cons_self _ _)) ht)

theorem contentAddressed_runTx {hash : String → String} {db : List CasbinRule}
    {stmts : List Stmt} {failAt : Option Nat}
    (hgood : ∀ s ∈ stmts, StmtGood hash s) (hdb : contentAddressed hash db) :
    contentAddressed hash (runTx db stmts failAt).1 := by
  cases hok : (runTx db stmts failAt).2 with
  | false => rw [runTx_not_ok hok]; exact hdb
  | true => rw [runTx_ok hok]; exact contentAddressed_foldl stmts db hgood hdb

theorem all_buildFilterArgs_iff (r : CasbinRule) (vs : List String) :
    ∀ (fi : Nat),
      ((buildFilterArgs fi vs).all (fun a => getV r a.1 == a.2) = true) ↔
        (∀ i, (h : i < vs.length) → vs.get ⟨i, h⟩ ≠ "" → getV r (fi + i) = vs.get ⟨i, h⟩) := by
  induction vs with
  | nil => intro fi; simp [buildFilterArgs]
  | cons v tl ih =>
    intro fi
    by_cases hv : v = ""
    · rw [show buildFilterArgs fi (v :: tl) = buildFilterArgs (fi + 1) tl from by
        simp [buildFilterArgs, hv]]
      rw [ih (fi + 1)]
      constructor
      · intro hall i h hne
        cases i with
        | zero => exact absurd hv hne
        | succ j =>
          have hj : j < tl.length := by simpa [List.length_cons] using h
          have := hall j hj hne
          rw [show fi + (j + 1) = fi + 1 + j from by omega]
          exact this
      · intro hall i h hne
        have h2 : i + 1 < (v :: tl).length := by
          simp only [List.length_cons]
          omega
        have := hall (i + 1) h2 hne
        rw [show fi + 1 + i = fi + (i + 1) from by omega]
        exact this
    · rw [show buildFilterArgs fi (v :: tl) = (fi, v) :: buildFilterArgs (fi + 1) tl from by
        simp [buildFilterArgs, hv]]
      rw [List.all_cons, Bool.and_eq_true, ih (fi + 1)]
      simp only [beq_iff_eq]
      constructor
      · rintro ⟨hv0, hall⟩ i h hne
        cases i with
        | zero => simpa using hv0
        | succ j =>
          have hj : j < tl.length := by simpa [List.length_cons] using h
          have := hall j hj hne
          rw [show fi + (j + 1) = fi + 1 + j from by omega]
          exact this
      · intro hall
        constructor
        · have := hall 0 (by simp) hv
          simpa using this
        · intro i h hne
          have h2 : i + 1 < (v :: tl).length := by
            simp only [List.length_cons]
            omega
          have := hall (i + 1) h2 hne
          rw [show fi + 1 + i = fi + (i + 1) from by omega]
          exact this

theorem rowMatchesArgs_iff_spec (r : CasbinRule) (ptype : String) (fi : Nat) (vs : List String) :
    rowMatchesArgs r ptype (buildFilterArgs fi vs) = true ↔ filterMatchesSpec r ptype fi vs := by
  unfold rowMatchesArgs filterMatchesSpec
  rw [Bool.and_eq_true, beq_iff_eq, all_buildFilterArgs_iff]

theorem getV_buildUpdateLine (ptype : String) (fi : Int) (vs : List String) (j : Nat)
    (hj : j < 6) :
    getV (buildUpdateLine ptype fi vs) j =
      if fi ≤ (j : Int) ∧ (j : Int) < fi + vs.length then
        vs.getD ((j : Int) - fi).toNat "" else "" := by
  match j, hj with
  | 0, _ => rfl
  | 1, _ => rfl
  | 2, _ => rfl
  | 3, _ => rfl
  | 4, _ => rfl
  | 5, _ => rfl

theorem getLastNonEmptyIndex_eq (vs : List String) : ∀ (k : Nat) (hk : k < vs.length),
    vs.get ⟨k, hk⟩ ≠ "" → (∀ j (hj : j < vs.length), k < j → vs.get ⟨j, hj⟩ = "") →
    getLastNonEmptyIndex vs = k := by
  induction vs with
  | nil => intro k hk; exact absurd hk (Nat.not_lt_zero k)
  | cons v tl ih =>
    intro k hk hne hall
    rw [getLastNonEmptyIndex_cons]
    cases k with
    | zero =>
      have htl : ∀ x ∈ tl, x = "" := by
        intro x hx
        rcases List.mem_iff_get.mp hx with ⟨⟨j, hj⟩, hget⟩
        have h2 : j + 1 < (v :: tl).length := by
          simp only [List.length_cons]
          omega
        have := hall (j + 1) h2 (Nat.succ_pos j)
        rw [← hget]
        exact this
      have hr : getLastNonEmptyIndex tl = -1 :=
        (getLastNonEmptyIndex_eq_neg_one_iff tl).mpr htl
      rw [if_neg (by omega), if_pos (show v ≠ "" from hne)]
      rfl
    | succ j =>
      have hj : j < tl.length := by
        simp only [List.length_cons] at hk
        omega
      have htlne : tl.get ⟨j, hj⟩ ≠ "" := hne
      have htlall : ∀ m (hm : m < tl.length), j < m → tl.get ⟨m, hm⟩ = "" := by
        intro m hm hjm
        have h2 : m + 1 < (v :: tl).length := by
          simp only [List.length_cons]
          omega
        exact hall (m + 1) h2 (by omega)
      have hr := ih j hj htlne htlall
      rw [if_pos (by omega), hr]
      omega

theorem getD_eq_get (l : List String) (i : Nat) (h : i < l.length) (d : String) :
    l.getD i d = l.get ⟨i, h⟩ := by
  simp [List.getD, List.getElem?_eq_getElem h, List.get_eq_getElem]

theorem queryMatches_buildUpdateLine_iff (r : CasbinRule) (ptype : String) (fi : Int)
    (vs : List String) (h0 : 0 ≤ fi) (h6 : fi + vs.length ≤ 6) (hvne : vs ≠ [])
    (hlast : vs.getLast hvne ≠ "") :
    queryMatches (buildUpdateLine ptype fi vs) r = true ↔
      (r.Ptype = ptype ∧ (∀ j : Nat, (j : Int) < fi → getV r j = "") ∧
        (∀ i, i < vs.length → getV r (fi.toNat + i) = vs.getD i "")) := by
  have hL : 1 ≤ vs.length := List.length_pos.mpr hvne
  have hval : ∀ j, j < 6 → getV (buildUpdateLine ptype fi vs) j =
      if fi.toNat ≤ j ∧ j < fi.toNat + vs.length then vs.getD (j - fi.toNat) "" else "" := by
    intro j hj
    rw [getV_buildUpdateLine ptype fi vs j hj]
    by_cases hc : fi.toNat ≤ j ∧ j < fi.toNat + vs.length
    · rw [if_pos (by constructor <;> omega), if_pos hc]
      congr 1
      omega
    · rw [if_neg (fun hcc => hc ⟨by omega, by omega⟩), if_neg hc]
  have hlastIdx : getLastNonEmptyIndex (getValues (buildUpdateLine ptype fi vs)) =
      ((fi.toNat + vs.length - 1 : Nat) : Int) := by
    apply getLastNonEmptyIndex_eq
    · rw [getValues_get_eq_getV _ _ (by rw [length_getValues]; omega : fi.toNat + vs.length - 1 < (getValues (buildUpdateLine ptype fi vs)).length)]
      rw [hval _ (by omega), if_pos ⟨by omega, by omega⟩,
        show fi.toNat + vs.length - 1 - fi.toNat = vs.length - 1 from by omega]
      rw [getD_eq_get vs (vs.length - 1) (by omega) ""]
      rw [← List.getLast_eq_get vs hvne]
      exact hlast
    · intro j hj hgt
      rw [length_getValues] at hj
      rw [getValues_get_eq_getV _ _ (by rw [length_getValues]; omega)]
      rw [hval j (by omega), if_neg (fun hcc => by omega)]
  unfold queryMatches
  rw [hlastIdx,
    show (((fi.toNat + vs.length - 1 : Nat) : Int) + 1).toNat = fi.toNat + vs.length from by
      omega]
  rw [Bool.and_eq_true, beq_iff_eq, List.all_eq_true]
  rw [show (buildUpdateLine ptype fi vs).Ptype = ptype from rfl]
  constructor
  · rintro ⟨hp, hall⟩
    refine ⟨hp, ?_, ?_⟩
    · intro j hj
      have hj6 : j < 6 := by omega
      have hmem := hall j (List.mem_range.mpr (by omega))
      rw [beq_iff_eq] at hmem
      rw [hmem, getValues_getD_eq_getV _ _ hj6, hval j hj6, if_neg (fun hcc => by omega)]
    · intro i hi
      have hi6 : fi.toNat + i < 6 := by omega
      have hmem := hall (fi.toNat + i) (List.mem_range.mpr (by omega))
      rw [beq_iff_eq] at hmem
      rw [hmem, getValues_getD_eq_getV _ _ hi6, hval _ hi6, if_pos ⟨by omega, by omega⟩,
        show fi.toNat + i - fi.toNat = i from by omega]
  · rintro ⟨hp, hbefore, hwin⟩
    refine ⟨hp, ?_⟩
    intro x hx
    rw [List.mem_range] at hx
    rw [beq_iff_eq]
    have hx6 : x < 6 := by omega
    rw [getValues_getD_eq_getV _ _ hx6, hval x hx6]
    by_cases hc : fi.toNat ≤ x
    · rw [if_pos ⟨hc, by omega⟩]
      have := hwin (x - fi.toNat) (by omega)
      rw [show fi.toNat + (x - fi.toNat) = x from by omega] at this
      exact this
    · rw [if_neg (fun hcc => hc hcc.1)]
      exact hbefore x (by omega)

/-- Claim C1, corrected.  The byte sequence `policyID` hashes is the
comma-join of the ruleType and exactly the supplied values — there is no
padding to six slots.  Appending `v` as an extra slot appends `"," ++ v`
to the hashed bytes, so appending an explicit trailing empty slot
changes the hashed bytes, and the identifier therefore distinguishes
(up to hash collision) explicit trailing empty slots from omitted
ones. -/
theorem c1_theorem (hash : String → String) (ptype : String) (rule : List String) (v : String) :
    policyID hash ptype (rule ++ [v]) = hash (policyIDData ptype rule ++ "," ++ v) ∧
    policyIDData ptype (rule ++ [""]) ≠ policyIDData ptype rule := by
  constructor
  · unfold policyID policyIDData
    rw [show ptype :: (rule ++ [v]) = ptype :: rule ++ [v] from rfl, joinSep_append_single]
  · exact policyIDData_append_empty_ne ptype rule

/-- Claim C1, counterexample to the claim as stated: for ruleType "p"
and value list ["a"], the bytes hashed are "p,a", not the fixed-width
six-slot form "p,a,,,,," — so the hashed bytes (and hence the
identifier) do depend on whether trailing empty slots are explicit. -/
theorem c1_counterexample :
    policyIDData "p" ["a"] = "p,a" ∧
    policyIDData "p" ["a", "", "", "", "", ""] = "p,a,,,,," ∧
    policyIDData "p" ["a"] ≠ policyIDData "p" ["a", "", "", "", "", ""] := by
  refine ⟨by decide, by decide, by decide⟩

/-- Claim C5, confirmed.  The String() rendering of a row equals the
spec-side rendering: the ruleType followed by `", " ++ vi` for every i
up to the last non-empty index (interior empties included), and when
all six value columns are empty the line is exactly the ruleType. -/
theorem c5_theorem (r : CasbinRule) :
    r.string = lineSpec r ∧ ((∀ v ∈ getValues r, v = "") → r.string = r.Ptype) := by
  have hmain : r.string = lineSpec r := by
    unfold CasbinRule.string lineSpec
    rw [take_lastIndex_eq_trim]
  refine ⟨hmain, fun hall => ?_⟩
  rw [hmain]
  unfold lineSpec
  rw [(trimTrailingEmpty_eq_nil_iff (getValues r)).mpr hall]
  rfl

/-- Witness for C5 at a concrete row: all-empty values render to just
the ptype, and a row with an interior empty value renders with the
interior separator kept. -/
theorem c5_witness :
    ({ ID := "i", Ptype := "p", V0 := "", V1 := "", V2 := "", V3 := "", V4 := "",
       V5 := "" } : CasbinRule).string = "p" :=
  (c5_theorem _).2 (by decide)

/-- Claim C3, confirmed.  For any ptype ≠ "" and rule of arity ≤ 6,
encoding to a row and parsing back (toStringPolicy) returns the ptype
followed by the rule trimmed of its trailing empty run; the String()
line of that row is the ", "-join of exactly that list; and the
original rule differs from the trimmed rule only by a trailing run of
empty strings (interior empties preserved exactly). -/
theorem c3_theorem (hash : String → String) (ptype : String) (rule : List String)
    (hpt : ptype ≠ "") (hlen : rule.length ≤ 6) :
    toStringPolicy (savePolicyLine hash ptype rule) = ptype :: trimTrailingEmpty rule ∧
    (savePolicyLine hash ptype rule).string = joinSep ", " (ptype :: trimTrailingEmpty rule) ∧
    rule = trimTrailingEmpty rule ++
      List.replicate (rule.length - (trimTrailingEmpty rule).length) "" := by
  have hvals := getValues_savePolicyLine hash ptype rule hlen
  have htrim : trimTrailingEmpty (getValues (savePolicyLine hash ptype rule))
      = trimTrailingEmpty rule := by
    rw [hvals, trim_append_replicate]
  refine ⟨?_, ?_, (trim_append_eq rule).symm⟩
  · unfold toStringPolicy
    rw [take_lastIndex_eq_trim, htrim,
      if_pos (show (savePolicyLine hash ptype rule).Ptype ≠ "" from hpt)]
    rfl
  · unfold CasbinRule.string
    rw [take_lastIndex_eq_trim, htrim, joinSep_cons_eq_foldl]
    rfl

/-- Witness for C3 at a concrete rule with an interior empty value. -/
theorem c3_witness :
    toStringPolicy (savePolicyLine (fun s => s) "p" ["alice", "", "read", ""]) =
      ["p", "alice", "", "read"] ∧
    (savePolicyLine (fun s => s) "p" ["alice", "", "read", ""]).string = "p, alice, , read" := by
  have h := c3_theorem (fun s => s) "p" ["alice", "", "read", ""] (by decide) (by decide)
  exact ⟨h.1.trans (by decide), h.2.1.trans (by decide)⟩

/-- Claim C2, confirmed.  SavePolicy runs delete-all plus all inserts in
one transaction: any failure (at the delete, any insert, or the commit)
leaves the table exactly as it was; on success the table holds exactly
one row per distinct rule content (one row per distinct content
identifier) gathered from the "p" and "g" sections, and nothing else. -/
theorem c2_theorem (hash : String → String) (db : List CasbinRule)
    (pSec gSec : List (String × List (List String))) (failAt : Option Nat) :
    ((savePolicyRun hash db pSec gSec failAt).2 = false →
      (savePolicyRun hash db pSec gSec failAt).1 = db) ∧
    ((savePolicyRun hash db pSec gSec failAt).2 = true →
      NodupIDs (savePolicyRun hash db pSec gSec failAt).1 ∧
      (∀ r ∈ (savePolicyRun hash db pSec gSec failAt).1,
        r ∈ gatherPolicyLines hash pSec ++ gatherPolicyLines hash gSec) ∧
      (∀ l ∈ gatherPolicyLines hash pSec ++ gatherPolicyLines hash gSec,
        countId (savePolicyRun hash db pSec gSec failAt).1 l.ID = 1)) := by
  unfold savePolicyRun
  constructor
  · intro h
    exact runTx_not_ok h
  · intro h
    have hres := runTx_ok h
    rw [hres]
    unfold savePolicyStmts
    rw [List.foldl_cons]
    rw [show applyStmt db Stmt.deleteAll = [] from rfl, foldl_applyStmt_inserts]
    have hnd : NodupIDs
        ((gatherPolicyLines hash pSec ++ gatherPolicyLines hash gSec).foldl insertOnConflict []) :=
      nodupIDs_foldl_insert _ _ (by simp [NodupIDs])
    refine ⟨hnd, ?_, ?_⟩
    · intro r hr
      rcases mem_foldl_insert hr with h2 | h2
      · cases h2
      · exact h2
    · intro l hl
      rw [countId_eq_ite _ hnd, hasId_foldl_insert]
      have hany : (gatherPolicyLines hash pSec ++ gatherPolicyLines hash gSec).any
          (fun x => x.ID == l.ID) = true :=
        List.any_eq_true.mpr ⟨l, hl, by simp⟩
      rw [hany]
      simp [hasId]

/-- Witness for C2: a failure injected at the first insert leaves the
pre-save table intact; a failure-free run yields a duplicate-free
table. -/
theorem c2_witness :
    (savePolicyRun (fun s => s) [savePolicyLine (fun s => s) "p" ["x"]]
        [("p", [["a"], ["a"]])] [] (some 1)).1 = [savePolicyLine (fun s => s) "p" ["x"]] ∧
    NodupIDs (savePolicyRun (fun s => s) [savePolicyLine (fun s => s) "p" ["x"]]
        [("p", [["a"], ["a"]])] [] none).1 := by
  constructor
  · exact (c2_theorem (fun s => s) _ _ _ _).1 (by decide)
  · exact ((c2_theorem (fun s => s) _ _ _ _).2 (by decide)).1

/-- Claim C6, confirmed.  AddPolicy is idempotent in rule content: a
second AddPolicy with the same ptype and values is a no-op (the
conflict-ignoring insert absorbs the duplicate, it is not an error),
and exactly one row with that rule's content identifier remains. -/
theorem c6_theorem (hash : String → String) (db : List CasbinRule) (sec ptype : String)
    (rule : List String) (hnd : NodupIDs db) :
    addPolicy hash (addPolicy hash db sec ptype rule) sec ptype rule
        = addPolicy hash db sec ptype rule ∧
    countId (addPolicy hash (addPolicy hash db sec ptype rule) sec ptype rule)
        (policyID hash ptype rule) = 1 := by
  have hd1 : hasId (addPolicy hash db sec ptype rule) (policyID hash ptype rule) = true := by
    unfold addPolicy
    rw [hasId_insertOnConflict]
    simp
    exact Or.inr rfl
  have heq : addPolicy hash (addPolicy hash db sec ptype rule) sec ptype rule
      = addPolicy hash db sec ptype rule := by
    show insertOnConflict (addPolicy hash db sec ptype rule) (savePolicyLine hash ptype rule)
        = addPolicy hash db sec ptype rule
    unfold insertOnConflict
    rw [if_pos (show hasId (addPolicy hash db sec ptype rule)
      (savePolicyLine hash ptype rule).ID = true from hd1)]
  refine ⟨heq, ?_⟩
  rw [heq]
  have hnd1 : NodupIDs (addPolicy hash db sec ptype rule) := nodupIDs_insertOnConflict _ hnd
  rw [countId_eq_ite _ hnd1, if_pos hd1]

/-- Witness for C6 at a concrete rule on the empty table. -/
theorem c6_witness :
    addPolicy (fun s => s) (addPolicy (fun s => s) [] "p" "p" ["a", "b"]) "p" "p" ["a", "b"]
        = addPolicy (fun s => s) [] "p" "p" ["a", "b"] ∧
    countId (addPolicy (fun s => s) (addPolicy (fun s => s) [] "p" "p" ["a", "b"]) "p" "p"
        ["a", "b"]) (policyID (fun s => s) "p" ["a", "b"]) = 1 :=
  c6_theorem (fun s => s) [] "p" "p" ["a", "b"] (by simp [NodupIDs])

/-- Claim C7, confirmed.  RemoveFilteredPolicy deletes exactly the rows
with the given ptype whose column v(fieldIndex+i) equals fieldValues[i]
for every non-empty fieldValues[i]; empty filter values and columns
outside the window constrain nothing, and non-matching rows survive
unchanged.  The window bound keeps every referenced column inside
v0..v5 (outside it the generated SQL would name a non-existent
column). -/
theorem c7_theorem (db : List CasbinRule) (ptype : String) (fieldIndex : Nat)
    (fieldValues : List String) (hrange : fieldIndex + fieldValues.length ≤ 6) (r : CasbinRule) :
    r ∈ removeFilteredPolicy db ptype fieldIndex fieldValues ↔
      (r ∈ db ∧ ¬ filterMatchesSpec r ptype fieldIndex fieldValues) := by
  unfold removeFilteredPolicy
  rw [List.mem_filter]
  constructor
  · rintro ⟨hmem, hpred⟩
    refine ⟨hmem, fun hspec => ?_⟩
    rw [← rowMatchesArgs_iff_spec] at hspec
    rw [hspec] at hpred
    simp at hpred
  · rintro ⟨hmem, hspec⟩
    refine ⟨hmem, ?_⟩
    cases hb : rowMatchesArgs r ptype (buildFilterArgs fieldIndex fieldValues)
    · rfl
    · exact absurd ((rowMatchesArgs_iff_spec r ptype fieldIndex fieldValues).mp hb) hspec

/-- Witness for C7 on the spec's example: RemoveFilteredPolicy("p", 1,
"data1") and the row (p, alice, data1, read), which matches and is
deleted. -/
theorem c7_witness :
    ({ ID := "1", Ptype := "p", V0 := "alice", V1 := "data1", V2 := "read", V3 := "",
       V4 := "", V5 := "" } : CasbinRule) ∈
      removeFilteredPolicy
        [{ ID := "1", Ptype := "p", V0 := "alice", V1 := "data1", V2 := "read", V3 := "",
           V4 := "", V5 := "" },
         { ID := "2", Ptype := "p", V0 := "bob", V1 := "data2", V2 := "write", V3 := "",
           V4 := "", V5 := "" }] "p" 1 ["data1"] ↔
      (({ ID := "1", Ptype := "p", V0 := "alice", V1 := "data1", V2 := "read", V3 := "",
          V4 := "", V5 := "" } : CasbinRule) ∈
        ([{ ID := "1", Ptype := "p", V0 := "alice", V1 := "data1", V2 := "read", V3 := "",
            V4 := "", V5 := "" },
          { ID := "2", Ptype := "p", V0 := "bob", V1 := "data2", V2 := "write", V3 := "",
            V4 := "", V5 := "" }] : List CasbinRule) ∧
        ¬ filterMatchesSpec
          { ID := "1", Ptype := "p", V0 := "alice", V1 := "data1", V2 := "read", V3 := "",
            V4 := "", V5 := "" } "p" 1 ["data1"]) :=
  c7_theorem _ "p" 1 ["data1"] (by decide) _

/-- Claim C4, corrected (amended part).  Every insert- or delete-based
write operation — SavePolicy, AddPolicy, AddPolicies, RemovePolicy,
RemovePolicies, RemoveFilteredPolicy, UpdateFilteredPolicies — keeps
every table row a `savePolicyLine` image, i.e. a row whose id is the
content hash of the rule that produced it.  UpdatePolicy/UpdatePolicies
are excluded: their UPDATE rewrites ptype and v0..v5 but not id, so they
break the content-derived-id invariant (see the counterexample). -/
theorem c4_theorem (hash : String → String) (db : List CasbinRule) (op : WriteOp)
    (failAt : Option Nat) (hdb : contentAddressed hash db) :
    contentAddressed hash (applyWriteOp hash db op failAt) := by
  unfold applyWriteOp
  exact contentAddressed_runTx (writeOpStmts_good hash op) hdb

/-- Witness for C4: adding a rule to a content-addressed one-row table
keeps the table content-addressed. -/
theorem c4_witness :
    contentAddressed (fun s => s)
      (applyWriteOp (fun s => s) [savePolicyLine (fun s => s) "p" ["a"]]
        (WriteOp.addOp "p" ["b"]) none) := by
  apply c4_theorem
  intro r hr
  exact ⟨"p", ["a"], List.mem_singleton.mp hr⟩

/-- Claim C4, counterexample to the claim as stated: with the identity
function standing in for the hash, UpdatePolicies on the row of
(p, alice, data1, read), rewriting it to (alice, data1, write), leaves a
row whose stored id is the old rule's identifier while its columns hold
the new values — the id no longer matches the hash of the row's own
ptype and value columns, under either the trailing-trimmed or the
fixed-six-column reading of "its value columns". -/
theorem c4_counterexample :
    (updatePoliciesRun (fun s => s) [savePolicyLine (fun s => s) "p" ["alice", "data1", "read"]]
        "p" "p" [["alice", "data1", "read"]] [["alice", "data1", "write"]] none).1 =
      [{ ID := "p,alice,data1,read", Ptype := "p", V0 := "alice", V1 := "data1",
         V2 := "write", V3 := "", V4 := "", V5 := "" }] ∧
    "p,alice,data1,read" ≠ policyIDData "p" ["alice", "data1", "write"] ∧
    "p,alice,data1,read" ≠ policyIDData "p" ["alice", "data1", "write", "", "", ""] := by
  refine ⟨by decide, by decide, by decide⟩

/-- Claim C8, corrected (amended part).  The predicate
UpdateFilteredPolicies matches existing rows with (queryString of the
built line) is characterised, for a window starting at fieldIndex ≥ 0
that stays inside v0..v5 and whose last supplied value is non-empty, as:
ptype equality, AND every column strictly below fieldIndex equal to the
empty string, AND every column of the window equal to the supplied value
at its position — including empty interior values.  Unlike the
load/remove predicate, empty values and the columns before the window DO
constrain (they must equal ""), which is the divergence shown in the
counterexample. -/
theorem c8_theorem (r : CasbinRule) (ptype : String) (fi : Int) (vs : List String)
    (h0 : 0 ≤ fi) (h6 : fi + vs.length ≤ 6) (hvne : vs ≠ [])
    (hlast : vs.getLast hvne ≠ "") :
    queryMatches (buildUpdateLine ptype fi vs) r = true ↔
      (r.Ptype = ptype ∧ (∀ j : Nat, (j : Int) < fi → getV r j = "") ∧
        (∀ i, i < vs.length → getV r (fi.toNat + i) = vs.getD i "")) :=
  queryMatches_buildUpdateLine_iff r ptype fi vs h0 h6 hvne hlast

/-- Witness for C8: a row with v0 = "" and v1 = "data1" is matched by
the UpdateFilteredPolicies predicate for window (fieldIndex 1,
["data1"]). -/
theorem c8_witness :
    queryMatches (buildUpdateLine "p" 1 ["data1"])
        ({ ID := "x", Ptype := "p", V0 := "", V1 := "data1", V2 := "", V3 := "", V4 := "",
           V5 := "" } : CasbinRule) = true ↔
      (({ ID := "x", Ptype := "p", V0 := "", V1 := "data1", V2 := "", V3 := "", V4 := "",
          V5 := "" } : CasbinRule).Ptype = "p" ∧
        (∀ j : Nat, (j : Int) < 1 →
          getV ({ ID := "x", Ptype := "p", V0 := "", V1 := "data1", V2 := "", V3 := "",
                  V4 := "", V5 := "" } : CasbinRule) j = "") ∧
        (∀ i, i < (["data1"] : List String).length →
          getV ({ ID := "x", Ptype := "p", V0 := "", V1 := "data1", V2 := "", V3 := "",
                  V4 := "", V5 := "" } : CasbinRule) ((1 : Int).toNat + i)
            = (["data1"] : List String).getD i "")) :=
  c8_theorem _ "p" 1 ["data1"] (by decide) (by decide) (by decide) (by decide)

/-- Claim C8, counterexample to the claim as stated: the row
(p, alice, data1, ...) is matched (and would be deleted) by
RemoveFilteredPolicy's predicate for (ptype "p", fieldIndex 1,
["data1"]), but is NOT matched by the predicate UpdateFilteredPolicies
uses for the same arguments, because the latter also constrains the
column v0 (before the window) to equal the empty string. -/
theorem c8_counterexample :
    rowMatchesArgs
        ({ ID := "1", Ptype := "p", V0 := "alice", V1 := "data1", V2 := "", V3 := "",
           V4 := "", V5 := "" } : CasbinRule) "p" (buildFilterArgs 1 ["data1"]) = true ∧
    queryMatches (buildUpdateLine "p" 1 ["data1"])
        ({ ID := "1", Ptype := "p", V0 := "alice", V1 := "data1", V2 := "", V3 := "",
           V4 := "", V5 := "" } : CasbinRule) = false := by
  refine ⟨by decide, by decide⟩

/-- Claim C9, confirmed.  UpdateFilteredPolicies always returns an empty
list of previous (replaced) rules: the Go code declares the collected
old-row list empty and never appends the deleted rows to it, so the
returned list is [] no matter how many rows the deletes removed (and on
every call, successful or not). -/
theorem c9_theorem (hash : String → String) (db : List CasbinRule) (sec ptype : String)
    (newPolicies : List (List String)) (fieldIndex : Int) (fieldValues : List String)
    (failAt : Option Nat) :
    (updateFilteredPoliciesRun hash db sec ptype newPolicies fieldIndex fieldValues failAt).2
      = [] := rfl

/-- Claim C10, corrected (amended part).  For a rule longer than six
values, the row keeps only columns v0..v5 while the id is hashed over
the full untruncated value list; two same-length rules that differ in
exactly one position at index ≥ 6 yield rows with identical ptype and
v0..v5 columns but different hashed byte sequences (hence different ids
whenever the hash does not collide). -/
theorem c10_theorem (hash : String → String) (ptype : String) (u t : List String) (x y : String)
    (hu : 6 ≤ u.length) (hxy : x ≠ y) :
    (savePolicyLine hash ptype (u ++ x :: t)).Ptype
        = (savePolicyLine hash ptype (u ++ y :: t)).Ptype ∧
    getValues (savePolicyLine hash ptype (u ++ x :: t))
        = getValues (savePolicyLine hash ptype (u ++ y :: t)) ∧
    (savePolicyLine hash ptype (u ++ x :: t)).ID = policyID hash ptype (u ++ x :: t) ∧
    policyIDData ptype (u ++ x :: t) ≠ policyIDData ptype (u ++ y :: t) := by
  have hcol : ∀ k, k < 6 → (u ++ x :: t).getD k "" = (u ++ y :: t).getD k "" := by
    intro k hk
    have hkl : k < u.length := by omega
    simp [List.getD, List.getElem?_append, hkl]
  refine ⟨rfl, ?_, rfl, ?_⟩
  · show [(u ++ x :: t).getD 0 "", (u ++ x :: t).getD 1 "", (u ++ x :: t).getD 2 "",
        (u ++ x :: t).getD 3 "", (u ++ x :: t).getD 4 "", (u ++ x :: t).getD 5 ""]
      = [(u ++ y :: t).getD 0 "", (u ++ y :: t).getD 1 "", (u ++ y :: t).getD 2 "",
        (u ++ y :: t).getD 3 "", (u ++ y :: t).getD 4 "", (u ++ y :: t).getD 5 ""]
    rw [hcol 0 (by omega), hcol 1 (by omega), hcol 2 (by omega), hcol 3 (by omega),
      hcol 4 (by omega), hcol 5 (by omega)]
  · intro h
    exact hxy (joinSep_slot_inj "," ptype x y u t h)

/-- Witness for C10 at a seven-value rule. -/
theorem c10_witness :
    getValues (savePolicyLine (fun s => s) "p" (["1", "2", "3", "4", "5", "6"] ++ ["x"]))
        = getValues (savePolicyLine (fun s => s) "p" (["1", "2", "3", "4", "5", "6"] ++ ["y"])) ∧
    policyIDData "p" (["1", "2", "3", "4", "5", "6"] ++ ["x"])
        ≠ policyIDData "p" (["1", "2", "3", "4", "5", "6"] ++ ["y"]) := by
  have h := c10_theorem (fun s => s) "p" ["1", "2", "3", "4", "5", "6"] [] "x" "y"
    (by decide) (by decide)
  exact ⟨h.2.1, h.2.2.2⟩

/-- Claim C10, counterexample to the claim as stated: two rules with
identical first six values that differ only at positions ≥ 6 need not
produce distinct rows — the comma-join is ambiguous, so
("a,b", "") and ("a", "b,") at positions 6 and 7 hash the very same
byte sequence and produce the very same row. -/
theorem c10_counterexample :
    (["a", "a", "a", "a", "a", "a", "a,b", ""] : List String)
        ≠ ["a", "a", "a", "a", "a", "a", "a", "b,"] ∧
    (["a", "a", "a", "a", "a", "a", "a,b", ""] : List String).take 6
        = (["a", "a", "a", "a", "a", "a", "a", "b,"] : List String).take 6 ∧
    savePolicyLine (fun s => s) "p" ["a", "a", "a", "a", "a", "a", "a,b", ""]
        = savePolicyLine (fun s => s) "p" ["a", "a", "a", "a", "a", "a", "a", "b,"] := by
  refine ⟨by decide, by decide, by decide⟩
